import Mathlib

/-
Verification development for girabot's resilience and credential-brokering
layer.  The Go sources are shallowly embedded: pure logic is translated to
executable Lean definitions, stateful handlers become explicit state-passing
functions, machine integers become Nat/Int, external library calls (HTTP,
JSON decoding, JWT parsing, AES block cipher) are represented by their decoded
results or by explicit function parameters.
-/

namespace Girabot

/-- A JSON value as far as the GraphQL error-extension checks inspect it.
Go inspects `ext["code"].(string)` and `ext["codes"].([]any)` with a string
comparison on the first element, so only strings and arrays are distinguished;
everything else is opaque. -/
inductive JsonVal
  | str (s : String)
  | arr (xs : List JsonVal)
  | other


/-- One entry of `graphql.Errors`: a message plus optional extensions map
(modelled as an association list, first binding wins as in a Go map lookup). -/
structure GqlError where
  message : String
  extensions : Option (List (String × JsonVal))


/-- `ext[key]` on the decoded extensions map. -/
def lookupExt (ext : List (String × JsonVal)) (key : String) : Option JsonVal :=
  (ext.find? (fun p => p.1 == key)).map (fun p => p.2)

namespace Retryablehttp

/-- `internal/retryablehttp/transport.go`, `IsInvalidOperationError`:
the response body is decoded as `{ Errors graphql.Errors }`; `none` stands for
a JSON decode failure ("if we can't decode response as expected error, don't
retry").  Retries exactly when there is exactly one error entry whose `code`
extension is the string INVALID_OPERATION, or whose `codes` extension is an
array whose first element is that string. -/
def IsInvalidOperationError (decoded : Option (List GqlError)) : Bool :=
  match decoded with
  | none => false
  | some errs =>
    if errs.length == 1 then
      match errs with
      | [e] =>
        match e.extensions with
        | some ext =>
          (match lookupExt ext "code" with
           | some (JsonVal.str code) => code == "INVALID_OPERATION"
           | _ => false) ||
          (match lookupExt ext "codes" with
           | some (JsonVal.arr (JsonVal.str c0 :: _)) => c0 == "INVALID_OPERATION"
           | _ => false)
        | none => false
      | _ => false
    else false

/-- An HTTP response as the retry loop inspects it: the status code and the
decoded body (for the INVALID_OPERATION check). -/
structure HResponse where
  statusCode : Nat
  decoded : Option (List GqlError)


/-- `transport.go`, `doRetry`: retry on 5xx or on the INVALID_OPERATION
application error; otherwise don't. -/
def doRetry (resp : HResponse) : Bool :=
  if resp.statusCode / 100 == 5 then true
  else if IsInvalidOperationError resp.decoded then true
  else false

/-- Errors visible to the retry loop.  `deadlineExceeded` is
`context.DeadlineExceeded`, distinguished by `errors.Is`; other errors are
abstract. -/
inductive GoError
  | deadlineExceeded
  | other (n : Nat)


/-- Outcome of one inner `RoundTrip` attempt plus the body read:
`fail e` — the inner transport returned (nil, e);
`readFail r e` — a response arrived but reading its body failed with e;
`ok r` — a response arrived and its body was read. -/
inductive Outcome
  | fail (e : GoError)
  | readFail (r : HResponse) (e : GoError)
  | ok (r : HResponse)


/-- `transport.go`: `retryCount = 10` (default, `SetRetryCount` not called). -/
def retryCount : Nat := 10

/-- `transport.go`, `backoff`: Go computes
`time.Duration(math.Pow(1.5, retries)) * time.Second / 2`.
`math.Pow(1.5, r)` is exactly `3^r / 2^r` in binary floating point for every
`r` the loop can pass (`r ≤ 8`, and exactness holds up to `r = 33`), and the
conversion `time.Duration(·)` truncates the float toward zero, so the
nanosecond count is `⌊3^r / 2^r⌋ * 10^9 / 2` with integer division. -/
def backoff (retries : Nat) : Nat :=
  3 ^ retries / 2 ^ retries * 1000000000 / 2

/-- Result of the whole retry loop: final response and error as returned to
the caller, the number of inner attempts performed, and the sleeps performed
(attempt index paired with the slept nanoseconds). -/
structure RTOut where
  resp : Option HResponse
  err : Option GoError
  attempts : Nat
  sleeps : List (Nat × Nat)


/-- The loop body of `Transport.RoundTrip` (`transport.go` lines 70-109),
iterating attempt index `i` with `fuel = retryCount - i` iterations left.
On `context.DeadlineExceeded` the loop `continue`s (no sleep); on any other
transport error or a body-read error it breaks returning that error; on a
decoded response it breaks unless `doRetry`, sleeping `backoff i` before the
next attempt except after the last one. -/
def roundTripFrom (att : Nat → Outcome) : Nat → Nat → RTOut
  | _, 0 => { resp := none, err := none, attempts := 0, sleeps := [] }
  | i, fuel + 1 =>
    match att i with
    | Outcome.fail GoError.deadlineExceeded =>
      let rest := roundTripFrom att (i + 1) fuel
      if rest.attempts = 0 then
        { resp := none, err := some GoError.deadlineExceeded, attempts := 1, sleeps := [] }
      else
        { rest with attempts := rest.attempts + 1 }
    | Outcome.fail e =>
      { resp := none, err := some e, attempts := 1, sleeps := [] }
    | Outcome.readFail r e =>
      { resp := some r, err := some e, attempts := 1, sleeps := [] }
    | Outcome.ok r =>
      if doRetry r then
        let rest := roundTripFrom att (i + 1) fuel
        if rest.attempts = 0 then
          { resp := some r, err := none, attempts := 1, sleeps := [] }
        else if i < retryCount - 1 then
          { rest with attempts := rest.attempts + 1, sleeps := (i, backoff i) :: rest.sleeps }
        else
          { rest with attempts := rest.attempts + 1 }
      else
        { resp := some r, err := none, attempts := 1, sleeps := [] }

/-- `Transport.RoundTrip` for a given sequence of inner attempt outcomes. -/
def RoundTrip (att : Nat → Outcome) : RTOut :=
  roundTripFrom att 0 retryCount

/-- What the loop returns when the given outcome was produced by the final
iteration it executed. -/
def outcomeResult : Outcome → Option HResponse × Option GoError
  | Outcome.fail e => (none, some e)
  | Outcome.readFail r e => (some r, some e)
  | Outcome.ok r => (some r, none)

/-- The nanosecond value of the spec's backoff formula "base^i / 2 seconds
with base = 1.5", computed in exact rational arithmetic. -/
def claimedBackoffQ (i : Nat) : ℚ :=
  (3 / 2 : ℚ) ^ i / 2 * 1000000000

/-- A response with status 500 and an undecodable body, as produced by an
upstream that always fails. -/
def resp500 : HResponse := { statusCode := 500, decoded := none }

/-- An inner transport whose every attempt yields a 500 response. -/
def always500 : Nat → Outcome := fun _ => Outcome.ok resp500

/-- A response with status 503 and an undecodable body. -/
def resp503 : HResponse := { statusCode := 503, decoded := none }

/-- An inner transport whose every attempt yields a 503 response. -/
def always503 : Nat → Outcome := fun _ => Outcome.ok resp503

end Retryablehttp

namespace Gira

/-- `internal/gira/retry.go`, `isInvalidOperationError` (the package-private
variant the subscription engine uses on `err.Error()`): the text is decoded
as `{ Errors graphql.Errors }` (`none` models a JSON decode failure) and the
check succeeds only when there is exactly one error entry whose `code`
extension is the string INVALID_OPERATION; this variant has no `codes`-array
arm. -/
def isInvalidOperationError (decoded : Option (List GqlError)) : Bool :=
  match decoded with
  | none => false
  | some errs =>
    if errs.length == 1 then
      match errs with
      | [e] =>
        match e.extensions with
        | some ext =>
          match lookupExt ext "code" with
          | some (JsonVal.str code) => code == "INVALID_OPERATION"
          | _ => false
        | none => false
      | _ => false
    else false

/-- One message delivered to the handler closure of
`subscriptions.go`, `startSubscription`: either a stream error (carrying the
decode of its message text as fed to `isInvalidOperationError`) or a data
message together with whether `jsonutil.UnmarshalGraphQL` succeeds on it. -/
inductive SubMsg
  | errMsg (decoded : Option (List GqlError))
  | dataMsg (unmarshalOk : Bool)

/-- The value the handler closure returns for one message. -/
inductive HandlerRes
  | stopped
  | errRes
  | unmarshalErr
  | delivered

/-- The handler closure in `startSubscription`, with the captured `willRetry`
flag made explicit: a stream error matching the transient marker returns
`graphql.ErrSubscriptionStopped` and keeps `willRetry`; any other stream
error clears `willRetry` and returns the error itself; an unmarshal failure
returns that error; otherwise the callback is invoked and nil returned. -/
def handler (willRetry : Bool) (m : SubMsg) : Bool × HandlerRes :=
  match m with
  | SubMsg.errMsg d =>
    if isInvalidOperationError d then (willRetry, HandlerRes.stopped)
    else (false, HandlerRes.errRes)
  | SubMsg.dataMsg ok =>
    if ok then (willRetry, HandlerRes.delivered)
    else (willRetry, HandlerRes.unmarshalErr)

/-- One connection (`startOneSubscription` driving `c.Run()`): the handler
consumes messages until it returns non-nil; `ErrSubscriptionStopped` makes
`Run` finish with a nil error, any other handler error is surfaced by `Run`.
Returns the `willRetry` flag afterwards and whether `startOneSubscription`
returned a non-nil error (`false` also when the connection simply closed). -/
def runSession (willRetry : Bool) : List SubMsg → Bool × Bool
  | [] => (willRetry, false)
  | m :: rest =>
    match handler willRetry m with
    | (wr, HandlerRes.delivered) => runSession wr rest
    | (wr, HandlerRes.stopped) => (wr, false)
    | (wr, HandlerRes.errRes) => (wr, true)
    | (wr, HandlerRes.unmarshalErr) => (wr, true)

/-- The reconnect loop of `startSubscription` (token fetches succeeding and
the governing context alive, the regime the claim is about): how many
connections are opened over a given sequence of per-connection message
traces.  The loop re-checks `willRetry` before each connection and returns
immediately when a connection ends with a non-nil error. -/
def watchConnections : Bool → List (List SubMsg) → Nat
  | _, [] => 0
  | willRetry, s :: rest =>
    if willRetry then
      match runSession willRetry s with
      | (_, true) => 1
      | (wr, false) => 1 + watchConnections wr rest
    else 0

/-- `startSubscription` begins with `willRetry := true`. -/
def startSubscription (sessions : List (List SubMsg)) : Nat :=
  watchConnections true sessions

end Gira

namespace TokenServer

/-- `token-server/main.go`, `IntegrityToken`: one row of the broker's lease
table.  Times are modelled as integers (seconds); the Go zero time is 0. -/
structure IntegrityToken where
  token : String
  createdAt : Int
  tokenSource : String
  expiresAt : Int
  assignedTo : String
  assignedAt : Int
  userAgent : String
deriving DecidableEq

/-- The error outcomes of `getIntegrityToken`. -/
inductive ExchangeErr
  | missingToken
  | badToken
  | authFailed
  | noTokens
deriving DecidableEq

/-- The observable outcome of `getIntegrityToken`: its return value, the
lease table afterwards, and whether the identity-verification endpoint
(`s.auth.UserID`) was called. -/
structure ExchangeOut where
  result : Except ExchangeErr String
  db : List IntegrityToken
  authCalled : Bool

/-- The row rewrite performed by the assignment transaction's
`Updates` call: every row whose token value equals the selected lease's gets
the verified identity, the assignment time and the requester's user agent. -/
def assignOne (id : String) (now : Int) (userAgent : String) (tokVal : String)
    (t : IntegrityToken) : IntegrityToken :=
  if t.token == tokVal then
    { t with assignedTo := id, assignedAt := now, userAgent := userAgent }
  else t

/-- `token-server/main.go`, `getIntegrityToken` (lines 472-548).  `parsedSub`
is the result of `jwt.ParseUnverified` + `GetSubject` on the `x-gira-token`
header (`none` models a parse failure), `authResult` the verified identity
`s.auth.UserID` would return (`none` models a verification failure).  Gorm's
unordered `First` is the first matching row in table order, the
`Order("expires_at ASC").First` is the earliest-expiry matching row, and
`Updates` on `token = tok.Token` rewrites every row with that token value.
The 2-minute leeway `nowLeeway = now + 120` is written inline. -/
def getIntegrityToken (db : List IntegrityToken) (now : Int) (headerToken : String)
    (parsedSub : Option String) (authResult : Option String) (userAgent : String) :
    ExchangeOut :=
  if headerToken = "" then
    { result := Except.error ExchangeErr.missingToken, db := db, authCalled := false }
  else
    match parsedSub with
    | none => { result := Except.error ExchangeErr.badToken, db := db, authCalled := false }
    | some sub =>
      match db.find? (fun t => t.assignedTo == sub && decide (now + 120 < t.expiresAt)) with
      | some tok => { result := Except.ok tok.token, db := db, authCalled := false }
      | none =>
        match authResult with
        | none => { result := Except.error ExchangeErr.authFailed, db := db, authCalled := true }
        | some id =>
          match db.find? (fun t => t.assignedTo == id && decide (now + 120 < t.expiresAt)) with
          | some tok => { result := Except.ok tok.token, db := db, authCalled := true }
          | none =>
            match (db.filter
                (fun t => t.assignedTo == "" && decide (now < t.expiresAt))).argmin
                IntegrityToken.expiresAt with
            | none =>
              { result := Except.error ExchangeErr.noTokens, db := db, authCalled := true }
            | some tok =>
              { result := Except.ok tok.token,
                db := db.map (assignOne id now userAgent tok.token),
                authCalled := true }

/-- `handleExchangeToken`: `noTokensError` becomes HTTP 404 "no tokens
available", other errors become 500, success writes the token with 200. -/
def handleExchangeToken (db : List IntegrityToken) (now : Int) (headerToken : String)
    (parsedSub : Option String) (authResult : Option String) (userAgent : String) :
    (Nat × String) × List IntegrityToken :=
  let out := getIntegrityToken db now headerToken parsedSub authResult userAgent
  match out.result with
  | Except.error ExchangeErr.noTokens => ((404, "no tokens available"), out.db)
  | Except.error _ => ((500, "failed to get token"), out.db)
  | Except.ok tok => ((200, tok), out.db)

/-- Result of `handlePostToken`. -/
inductive PostResult
  | badToken
  | longSource
  | conflict
  | saved
deriving DecidableEq

/-- `token-server/main.go`, `handlePostToken`: `claimsExp` is the expiry of
the verified firebase claims (`none` models a `parseToken` failure, which
also covers an expired or badly signed token); a duplicate token value is a
conflict; otherwise an unassigned lease is appended (Go zero values for the
assignment metadata). -/
def handlePostToken (db : List IntegrityToken) (now : Int) (token : String)
    (claimsExp : Option Int) (tokenSrc : String) : PostResult × List IntegrityToken :=
  match claimsExp with
  | none => (PostResult.badToken, db)
  | some exp =>
    if 32 < tokenSrc.length then (PostResult.longSource, db)
    else if db.any (fun t => t.token == token) then (PostResult.conflict, db)
    else
      (PostResult.saved,
       db ++ [{ token := token, createdAt := now, tokenSource := tokenSrc,
                expiresAt := exp, assignedTo := "", assignedAt := 0, userAgent := "" }])

/-- The row rewrite of the reclamation sweep: an expired lease that still has
a token value gets it cleared; assignment metadata is retained. -/
def cleanupOne (now : Int) (t : IntegrityToken) : IntegrityToken :=
  if decide (t.expiresAt < now) && t.token != "" then { t with token := "" } else t

/-- `cleanupTokens` body: clear the token value of every expired lease that
still has one. -/
def cleanupTokens (db : List IntegrityToken) (now : Int) : List IntegrityToken :=
  db.map (cleanupOne now)

/-- One broker transition: time moving forward, a `/post` request with a
verifiable token (an unverifiable one leaves the table unchanged), an
`/exchange` request with arbitrary header/subject/verification outcomes, or a
reclamation sweep. -/
inductive Step : List IntegrityToken × Int → List IntegrityToken × Int → Prop
  | tick (db : List IntegrityToken) (t t' : Int) (h : t ≤ t') : Step (db, t) (db, t')
  | post (db : List IntegrityToken) (t : Int) (token : String) (exp : Int) (src : String)
      (h : token ≠ "") :
      Step (db, t) ((handlePostToken db t token (some exp) src).2, t)
  | exchange (db : List IntegrityToken) (t : Int) (hdr : String)
      (sub auth : Option String) (ua : String) :
      Step (db, t) ((getIntegrityToken db t hdr sub auth ua).db, t)
  | cleanup (db : List IntegrityToken) (t : Int) : Step (db, t) (cleanupTokens db t, t)

/-- States reachable from an empty lease table. -/
def Reachable (s : List IntegrityToken × Int) : Prop :=
  Relation.ReflTransGen Step ([], 0) s

/-- Any two distinct rows sharing a token value only do so because the value
was cleared: non-empty token values are unique across the table. -/
def tokensDistinct (db : List IntegrityToken) : Prop :=
  db.Pairwise (fun t1 t2 => t1.token = t2.token → t1.token = "")

/-- Every unexpired lease still carries its token value. -/
def validNonempty (db : List IntegrityToken) (now : Int) : Prop :=
  ∀ t ∈ db, now < t.expiresAt → t.token ≠ ""

/-- Of any two distinct leases assigned to the same identity, at most one is
still valid beyond the 2-minute assignment leeway. -/
def leewayUnique (db : List IntegrityToken) (now : Int) : Prop :=
  db.Pairwise (fun t1 t2 => t1.assignedTo ≠ "" → t1.assignedTo = t2.assignedTo →
    t1.expiresAt ≤ now + 120 ∨ t2.expiresAt ≤ now + 120)

/-- The inductive broker invariant. -/
def BrokerInv (db : List IntegrityToken) (now : Int) : Prop :=
  tokensDistinct db ∧ validNonempty db now ∧ leewayUnique db now

/-- Trace for the uniqueness counterexample: a lease expiring at 100 and one
expiring at 10000 are posted at time 0; the same user exchanges at time 0
(receiving the earliest-expiry lease) and again at time 1 (its lease is
within the 2-minute leeway, so a second one is assigned). -/
def tokAu : IntegrityToken :=
  { token := "A", createdAt := 0, tokenSource := "", expiresAt := 100,
    assignedTo := "u", assignedAt := 0, userAgent := "ua" }

/-- The second lease the counterexample user ends up holding. -/
def tokBu : IntegrityToken :=
  { token := "B", createdAt := 0, tokenSource := "", expiresAt := 10000,
    assignedTo := "u", assignedAt := 1, userAgent := "ua" }

/-- A lease assigned to user "v" with ample validity (fast-path witness). -/
def tokC : IntegrityToken :=
  { token := "C", createdAt := 0, tokenSource := "", expiresAt := 300,
    assignedTo := "v", assignedAt := 0, userAgent := "" }

/-- An unassigned valid lease (pool-availability witness). -/
def tokD : IntegrityToken :=
  { token := "D", createdAt := 0, tokenSource := "", expiresAt := 500,
    assignedTo := "", assignedAt := 0, userAgent := "" }

end TokenServer

/-- Does `pat` occur at the start of `s`?  (Helper for the substring check.) -/
def hasPrefixChars : List Char → List Char → Bool
  | _, [] => true
  | [], _ :: _ => false
  | c :: cs, p :: ps => c == p && hasPrefixChars cs ps

/-- Does `pat` occur anywhere in `s`?  (`strings.Contains` on rune lists.) -/
def listContains : List Char → List Char → Bool
  | [], pat => pat.isEmpty
  | c :: cs, pat => hasPrefixChars (c :: cs) pat || listContains cs pat

/-- Go's `strings.Contains(s, pat)`. -/
def containsStr (s pat : String) : Bool :=
  listContains s.toList pat.toList

namespace Giraauth

/-- `internal/giraauth/giraauth.go`: the distinguished sentinel errors plus
the other failure shapes `apiCall`/`Refresh` produce. -/
inductive AuthError
  | internalServer
  | invalidEmail
  | invalidCredentials
  | invalidRefreshToken
  | httpError (status : Nat) (body : String)
  | apiError (code : Int) (msg : String)
  | decodeError
  | parseError
deriving DecidableEq

/-- An HTTP exchange with the auth endpoint, as `apiCall` inspects it: status
code, raw body text (for the `strings.Contains` checks), and the decode of
the body into the error envelope `{ error: { code, message } }` (`none`
models malformed JSON; absent fields decode to zero values). -/
structure HttpResp where
  status : Nat
  body : String
  errEnvelope : Option (Int × String)
deriving DecidableEq

/-- `Client.apiCall`, error-classification part (lines 148-181): HTTP 500 is
the internal-server sentinel; HTTP 400 with "Invalid refresh token" in the
body is the invalid-refresh-token sentinel; HTTP 400 with "The field Email
must" is the invalid-email sentinel; any other non-200 status is a generic
HTTP error; on 200 the error envelope is decoded, code 100 with "Invalid
credentials." is the invalid-credentials sentinel, any other non-zero code a
generic API error; `none` means the call proceeds to decode the payload. -/
def apiCallClassify (r : HttpResp) : Option AuthError :=
  if r.status == 500 then some AuthError.internalServer
  else if r.status == 400 && containsStr r.body "Invalid refresh token" then
    some AuthError.invalidRefreshToken
  else if r.status == 400 && containsStr r.body "The field Email must" then
    some AuthError.invalidEmail
  else if r.status != 200 then some (AuthError.httpError r.status r.body)
  else
    match r.errEnvelope with
    | none => some AuthError.decodeError
    | some (code, msg) =>
      if code == 100 && msg == "Invalid credentials." then
        some AuthError.invalidCredentials
      else if code != 0 then some (AuthError.apiError code msg)
      else none

/-- An OAuth-style token pair (`oauth2.Token`): access token, refresh token
and the access-token expiry (seconds; the Go zero time is 0, meaning "no
expiry"). -/
structure OToken where
  accessToken : String
  refreshToken : String
  expiry : Int
deriving DecidableEq

/-- `convertTokens`: parse the access token without verification to read its
expiry; `parsedExp = none` models a JWT parse failure. -/
def convertTokens (access refreshTok : String) (parsedExp : Option Int) :
    Except AuthError OToken :=
  match parsedExp with
  | none => Except.error AuthError.parseError
  | some e => Except.ok { accessToken := access, refreshToken := refreshTok, expiry := e }

/-- Everything the refresh HTTP exchange yields: the response as `apiCall`
sees it, the decode of the body into `{ data: { accessToken, refreshToken } }`
(`none` models malformed JSON), and the parsed expiry of the new access
token. -/
structure RefreshResp where
  http : HttpResp
  data : Option (String × String)
  accessExp : Option Int
deriving DecidableEq

/-- `Client.Refresh`: classify the exchange through `apiCall`, then decode
the token pair and convert it. -/
def Refresh (r : RefreshResp) : Except AuthError OToken :=
  match apiCallClassify r.http with
  | some e => Except.error e
  | none =>
    match r.data with
    | none => Except.error AuthError.decodeError
    | some (a, rt) => convertTokens a rt r.accessExp

end Giraauth

namespace Main

/-- `oauth2.Token.Valid()`: non-empty access token and not expired, where
expired means the expiry (shifted 10 seconds early) lies before now and the
zero time never expires. -/
def oauth2Valid (t : Giraauth.OToken) (now : Int) : Bool :=
  t.accessToken != "" && (t.expiry == 0 || decide (now ≤ t.expiry - 10))

/-- Failures of `tokenSource.Token` (`src/main.go`): the initial database
load failing, the refresh failing, or the save failing. -/
inductive TokenErr
  | dbError
  | saveError
  | authError (e : Giraauth.AuthError)
deriving DecidableEq

/-- `tokenSource.Token` (`src/main.go` lines 314-349), under the per-user
lock: load the stored token (`none` models a record-not-found error), return
it if still valid, otherwise refresh; a refresh error is returned as-is and
nothing is saved; on success the new token is saved and returned.  Returns
the call's result and the stored record afterwards. -/
def tokenSourceToken (stored : Option Giraauth.OToken) (now : Int)
    (rr : Giraauth.RefreshResp) (saveOk : Bool) :
    Except TokenErr Giraauth.OToken × Option Giraauth.OToken :=
  match stored with
  | none => (Except.error TokenErr.dbError, none)
  | some tok =>
    if oauth2Valid tok now then (Except.ok tok, some tok)
    else
      match Giraauth.Refresh rr with
      | Except.error e => (Except.error (TokenErr.authError e), some tok)
      | Except.ok newTok =>
        if saveOk then (Except.ok newTok, some newTok)
        else (Except.error TokenErr.saveError, some tok)

/-- A stored credential whose access token has long expired. -/
def staleTok : Giraauth.OToken :=
  { accessToken := "acc", refreshToken := "ref", expiry := 100 }

/-- The auth endpoint rejecting the refresh token. -/
def rejectResp : Giraauth.RefreshResp :=
  { http := { status := 400, body := "Invalid refresh token", errEnvelope := none },
    data := none, accessExp := none }

end Main

namespace Firebasetoken

/-- The standard base64 alphabet (`base64.StdEncoding`). -/
def b64Chars : List Char :=
  "ABCDEFGHIJKLMNOPQRSTUVWXYZabcdefghijklmnopqrstuvwxyz0123456789+/".toList

/-- Sextet value to base64 character. -/
def b64c (n : Nat) : Char := b64Chars.getD n 'A'

/-- Scan the alphabet for a character's sextet value. -/
def b64vAux : List Char → Nat → Char → Option Nat
  | [], _, _ => none
  | c :: rest, i, x => if x == c then some i else b64vAux rest (i + 1) x

/-- Base64 character to sextet value (`none` for non-alphabet characters). -/
def b64v (x : Char) : Option Nat := b64vAux b64Chars 0 x

/-- `base64.StdEncoding.EncodeToString` on a byte list: groups of three bytes
become four characters, a trailing group of one or two bytes is padded with
`=`. -/
def b64Encode : List Nat → List Char
  | [] => []
  | [a] => [b64c (a / 4), b64c (a % 4 * 16), '=', '=']
  | [a, b] => [b64c (a / 4), b64c (a % 4 * 16 + b / 16), b64c (b % 16 * 4), '=']
  | a :: b :: c :: rest =>
    b64c (a / 4) :: b64c (a % 4 * 16 + b / 16) :: b64c (b % 16 * 4 + c / 64) ::
      b64c (c % 64) :: b64Encode rest

/-- `base64.StdEncoding.DecodeString` on well-formed input (groups of four
characters, `=`-padding only in the final group); malformed input decodes to
`none`. -/
def b64Decode : List Char → Option (List Nat)
  | [] => some []
  | w :: x :: y :: z :: rest =>
    if rest.isEmpty && (y == '=') && (z == '=') then
      match b64v w, b64v x with
      | some vw, some vx => some [vw * 4 + vx / 16]
      | _, _ => none
    else if rest.isEmpty && (z == '=') then
      match b64v w, b64v x, b64v y with
      | some vw, some vx, some vy => some [vw * 4 + vx / 16, vx % 16 * 16 + vy / 4]
      | _, _, _ => none
    else
      match b64v w, b64v x, b64v y, b64v z, b64Decode rest with
      | some vw, some vx, some vy, some vz, some ds =>
        some ((vw * 4 + vx / 16) :: (vx % 16 * 16 + vy / 4) :: (vy % 4 * 64 + vz) :: ds)
      | _, _, _, _, _ => none
  | _ => none

/-- `crypto.go`, `getKeyAndIV`: tokens are byte lists (Go `string` ↔ `[]byte`
conversion is byte-exact); `sub`/`jti` are the respective claims of the
parsed caller-credential JWT (claim extraction itself is library code).  The
key is `sub` with every `-` byte (0x2D = 45) removed — `strings.ReplaceAll`
with a one-byte pattern — and must be exactly 32 bytes; the IV is the first
16 bytes of `jti`. -/
def getKeyAndIV (sub jti : List Nat) : Option (List Nat × List Nat) :=
  if sub.length < 36 then none
  else if (sub.filter (fun b => b != 45)).length ≠ 32 then none
  else if jti.length < 16 then none
  else some (sub.filter (fun b => b != 45), jti.take 16)

/-- The PKCS#7 padding step of `Encrypt`: `padding = 16 - len % 16` bytes,
each holding the padding length. -/
def pkcs7pad (pt : List Nat) : List Nat :=
  pt ++ List.replicate (16 - pt.length % 16) (16 - pt.length % 16)

/-- Bytewise XOR (the CBC chaining operation). -/
def xorBytes (a b : List Nat) : List Nat :=
  List.zipWith (fun x y => x ^^^ y) a b

/-- Split a byte list into 16-byte blocks (`CryptBlocks` granularity). -/
def chunk16 (l : List Nat) : List (List Nat) :=
  match l with
  | [] => []
  | a :: rest => ((a :: rest).take 16) :: chunk16 ((a :: rest).drop 16)
termination_by l.length
decreasing_by simp [List.length_drop]; omega

/-- `cipher.NewCBCEncrypter(...).CryptBlocks`: each block is XORed with the
previous ciphertext block (the IV first) and then block-encrypted. -/
def cbcEnc (E : List Nat → List Nat) (iv : List Nat) : List (List Nat) → List (List Nat)
  | [] => []
  | b :: rest => E (xorBytes iv b) :: cbcEnc E (E (xorBytes iv b)) rest

/-- `cipher.NewCBCDecrypter(...).CryptBlocks`: each block is block-decrypted
and XORed with the previous ciphertext block (the IV first). -/
def cbcDec (D : List Nat → List Nat) (iv : List Nat) : List (List Nat) → List (List Nat)
  | [] => []
  | c :: rest => xorBytes iv (D c) :: cbcDec D c rest

/-- The AES block cipher (`crypto/aes`, external library): a keyed pair of
block maps.  The round-trip theorem assumes only that decryption inverts
encryption on 16-byte blocks and that encryption maps 16-byte blocks to
16-byte blocks of bytes. -/
structure BlockCipher where
  enc : List Nat → List Nat → List Nat
  dec : List Nat → List Nat → List Nat

/-- `crypto.go`, `Encrypt`: derive key and IV from the caller credential,
PKCS#7-pad the attestation token, AES-CBC encrypt, base64-encode. -/
def Encrypt (A : BlockCipher) (integrityToken : List Nat) (sub jti : List Nat) :
    Option (List Char) :=
  match getKeyAndIV sub jti with
  | none => none
  | some (key, iv) =>
    some (b64Encode ((cbcEnc (A.enc key) iv (chunk16 (pkcs7pad integrityToken))).flatten))

/-- `crypto.go`, `decrypt`: derive key and IV, base64-decode, check the
ciphertext is at least one block and block-aligned, AES-CBC decrypt, check
and strip the PKCS#7 padding. -/
def decrypt (A : BlockCipher) (integrityTokenEncd : List Char) (sub jti : List Nat) :
    Option (List Nat) :=
  match getKeyAndIV sub jti with
  | none => none
  | some (key, iv) =>
    match b64Decode integrityTokenEncd with
    | none => none
    | some ciphertext =>
      if ciphertext.length < 16 || ciphertext.length % 16 != 0 then none
      else
        match ((cbcDec (A.dec key) iv (chunk16 ciphertext)).flatten).getLast? with
        | none => none
        | some padLen =>
          if 16 < padLen || padLen < 1 then none
          else if (((cbcDec (A.dec key) iv (chunk16 ciphertext)).flatten).drop
              (((cbcDec (A.dec key) iv (chunk16 ciphertext)).flatten).length - padLen)).all
              (fun b => b == padLen) then
            some (((cbcDec (A.dec key) iv (chunk16 ciphertext)).flatten).take
              (((cbcDec (A.dec key) iv (chunk16 ciphertext)).flatten).length - padLen))
          else none

/-- The trivial block cipher (round-trip witness instance). -/
def idCipher : BlockCipher :=
  { enc := fun _ b => b, dec := fun _ b => b }

/-- The `sub` claim of the credential in `crypto_test.go`, as bytes. -/
def subEx : List Nat :=
  "45e33173-2943-47ae-92de-59afbcab4c4c".toList.map Char.toNat

/-- The `jti` claim of the credential in `crypto_test.go`, as bytes. -/
def jtiEx : List Nat :=
  "3ebb9117-7150-4547-8cca-f51fd6e55f46".toList.map Char.toNat

/-- A 3-byte attestation token ("eee"), deliberately not block-aligned. -/
def tokEx : List Nat := [101, 101, 101]

end Firebasetoken

namespace Retryablehttp

lemma roundTripFrom_attempts_le (att : Nat → Outcome) :
    ∀ fuel i, (roundTripFrom att i fuel).attempts ≤ fuel := by
  intro fuel
  induction fuel with
  | zero => intro i; simp [roundTripFrom]
  | succ n ih =>
    intro i
    have hr := ih (i + 1)
    cases h : att i with
    | fail e =>
      cases e with
      | deadlineExceeded =>
        by_cases hz : (roundTripFrom att (i + 1) n).attempts = 0
        · simp [roundTripFrom, h, hz]
        · simp only [roundTripFrom, h, hz, if_false]
          omega
      | other m => simp [roundTripFrom, h]
    | readFail r e => simp [roundTripFrom, h]
    | ok r =>
      by_cases hdr : doRetry r = true
      · by_cases hz : (roundTripFrom att (i + 1) n).attempts = 0
        · simp [roundTripFrom, h, hdr, hz]
        · by_cases hi : i < retryCount - 1
          · simp only [roundTripFrom, h, hdr, hz, hi, if_true, if_false]
            omega
          · simp only [roundTripFrom, h, hdr, hz, hi, if_true, if_false]
            omega
      · simp [roundTripFrom, h, hdr]

lemma roundTripFrom_attempts_pos (att : Nat → Outcome) (i n : Nat) :
    0 < (roundTripFrom att i (n + 1)).attempts := by
  cases h : att i with
  | fail e =>
    cases e with
    | deadlineExceeded =>
      by_cases hz : (roundTripFrom att (i + 1) n).attempts = 0
      · simp [roundTripFrom, h, hz]
      · simp [roundTripFrom, h, hz]
    | other m => simp [roundTripFrom, h]
  | readFail r e => simp [roundTripFrom, h]
  | ok r =>
    by_cases hdr : doRetry r = true
    · by_cases hz : (roundTripFrom att (i + 1) n).attempts = 0
      · simp [roundTripFrom, h, hdr, hz]
      · by_cases hi : i < retryCount - 1
        · simp [roundTripFrom, h, hdr, hz, hi]
        · simp [roundTripFrom, h, hdr, hz, hi]
    · simp [roundTripFrom, h, hdr]

lemma roundTripFrom_result (att : Nat → Outcome) :
    ∀ fuel i, 0 < fuel →
      ((roundTripFrom att i fuel).resp, (roundTripFrom att i fuel).err) =
        outcomeResult (att (i + (roundTripFrom att i fuel).attempts - 1)) := by
  intro fuel
  induction fuel with
  | zero => intro i h; exact absurd h (by simp)
  | succ n ih =>
    intro i _
    cases h : att i with
    | fail e =>
      cases e with
      | deadlineExceeded =>
        by_cases hz : (roundTripFrom att (i + 1) n).attempts = 0
        · simp [roundTripFrom, h, hz, outcomeResult]
        · have hz' : 0 < (roundTripFrom att (i + 1) n).attempts := Nat.pos_of_ne_zero hz
          have hn : 0 < n := Nat.lt_of_lt_of_le hz' (roundTripFrom_attempts_le att n (i + 1))
          have ihr := ih (i + 1) hn
          simp only [roundTripFrom, h, hz, if_false]
          rw [show i + ((roundTripFrom att (i + 1) n).attempts + 1) - 1 =
              i + 1 + (roundTripFrom att (i + 1) n).attempts - 1 from by omega]
          exact ihr
      | other m => simp [roundTripFrom, h, outcomeResult]
    | readFail r e => simp [roundTripFrom, h, outcomeResult]
    | ok r =>
      by_cases hdr : doRetry r = true
      · by_cases hz : (roundTripFrom att (i + 1) n).attempts = 0
        · simp [roundTripFrom, h, hdr, hz, outcomeResult]
        · have hz' : 0 < (roundTripFrom att (i + 1) n).attempts := Nat.pos_of_ne_zero hz
          have hn : 0 < n := Nat.lt_of_lt_of_le hz' (roundTripFrom_attempts_le att n (i + 1))
          have ihr := ih (i + 1) hn
          have harith : i + ((roundTripFrom att (i + 1) n).attempts + 1) - 1 =
              i + 1 + (roundTripFrom att (i + 1) n).attempts - 1 := by omega
          by_cases hi : i < retryCount - 1
          · simp only [roundTripFrom, h, hdr, hz, hi, if_true, if_false]
            rw [harith]
            exact ihr
          · simp only [roundTripFrom, h, hdr, hz, hi, if_true, if_false]
            rw [harith]
            exact ihr
      · simp [roundTripFrom, h, hdr, outcomeResult]

lemma roundTripFrom_sleeps (att : Nat → Outcome) :
    ∀ fuel i j d, (j, d) ∈ (roundTripFrom att i fuel).sleeps →
      d = backoff j ∧ j + 1 < retryCount ∧
      ∃ r, att j = Outcome.ok r ∧ doRetry r = true := by
  intro fuel
  induction fuel with
  | zero => intro i j d hm; simp [roundTripFrom] at hm
  | succ n ih =>
    intro i j d hm
    cases h : att i with
    | fail e =>
      cases e with
      | deadlineExceeded =>
        by_cases hz : (roundTripFrom att (i + 1) n).attempts = 0
        · simp [roundTripFrom, h, hz] at hm
        · simp only [roundTripFrom, h, hz, if_false] at hm
          exact ih (i + 1) j d hm
      | other m => simp [roundTripFrom, h] at hm
    | readFail r e => simp [roundTripFrom, h] at hm
    | ok r =>
      by_cases hdr : doRetry r = true
      · by_cases hz : (roundTripFrom att (i + 1) n).attempts = 0
        · simp [roundTripFrom, h, hdr, hz] at hm
        · by_cases hi : i < retryCount - 1
          · simp only [roundTripFrom, h, hdr, hz, hi, if_true, if_false, List.mem_cons] at hm
            rcases hm with hm | hm
            · have hj : j = i := congrArg Prod.fst hm
              have hd : d = backoff i := congrArg Prod.snd hm
              subst hj
              refine ⟨hd, ?_, r, h, hdr⟩
              have h10 : retryCount = 10 := rfl
              omega
            · exact ih (i + 1) j d hm
          · simp only [roundTripFrom, h, hdr, hz, hi, if_true, if_false] at hm
            exact ih (i + 1) j d hm
      · simp [roundTripFrom, h, hdr] at hm

lemma roundTripFrom_split (att : Nat → Outcome) :
    ∀ k i fuel, k ≤ fuel → k < (roundTripFrom att i fuel).attempts →
      (roundTripFrom att i fuel).attempts =
        k + (roundTripFrom att (i + k) (fuel - k)).attempts := by
  intro k
  induction k with
  | zero => intro i fuel _ _; simp
  | succ m ih =>
    intro i fuel hkf hka
    match fuel, hkf with
    | n + 1, hkf =>
      cases h : att i with
      | fail e =>
        cases e with
        | deadlineExceeded =>
          by_cases hz : (roundTripFrom att (i + 1) n).attempts = 0
          · rw [show (roundTripFrom att i (n + 1)).attempts = 1 from by
                simp [roundTripFrom, h, hz]] at hka
            omega
          · have hstep : (roundTripFrom att i (n + 1)).attempts =
                (roundTripFrom att (i + 1) n).attempts + 1 := by
              simp [roundTripFrom, h, hz]
            rw [hstep] at hka ⊢
            have := ih (i + 1) n (by omega) (by omega)
            rw [this, show i + 1 + m = i + (m + 1) from by omega,
              show n - m = n + 1 - (m + 1) from by omega]
            omega
        | other e =>
          rw [show (roundTripFrom att i (n + 1)).attempts = 1 from by
              simp [roundTripFrom, h]] at hka
          omega
      | readFail r e =>
        rw [show (roundTripFrom att i (n + 1)).attempts = 1 from by
            simp [roundTripFrom, h]] at hka
        omega
      | ok r =>
        by_cases hdr : doRetry r = true
        · by_cases hz : (roundTripFrom att (i + 1) n).attempts = 0
          · rw [show (roundTripFrom att i (n + 1)).attempts = 1 from by
                simp [roundTripFrom, h, hdr, hz]] at hka
            omega
          · have hstep : (roundTripFrom att i (n + 1)).attempts =
                (roundTripFrom att (i + 1) n).attempts + 1 := by
              by_cases hi : i < retryCount - 1
              · simp [roundTripFrom, h, hdr, hz, hi]
              · simp [roundTripFrom, h, hdr, hz, hi]
            rw [hstep] at hka ⊢
            have := ih (i + 1) n (by omega) (by omega)
            rw [this, show i + 1 + m = i + (m + 1) from by omega,
              show n - m = n + 1 - (m + 1) from by omega]
            omega
        · rw [show (roundTripFrom att i (n + 1)).attempts = 1 from by
              simp [roundTripFrom, h, hdr]] at hka
          omega

lemma roundTripFrom_attempts_ok_stop (att : Nat → Outcome) (i n : Nat) (r : HResponse)
    (h : att i = Outcome.ok r) (hdr : ¬doRetry r = true) :
    (roundTripFrom att i (n + 1)).attempts = 1 := by
  simp [roundTripFrom, h, hdr]

lemma roundTripFrom_attempts_ok_retry (att : Nat → Outcome) (i n : Nat) (r : HResponse)
    (h : att i = Outcome.ok r) (hdr : doRetry r = true)
    (hz : (roundTripFrom att (i + 1) n).attempts ≠ 0) :
    (roundTripFrom att i (n + 1)).attempts = (roundTripFrom att (i + 1) n).attempts + 1 := by
  by_cases hi : i < retryCount - 1
  · simp [roundTripFrom, h, hdr, hz, hi]
  · simp [roundTripFrom, h, hdr, hz, hi]

lemma doRetry_iff (r : HResponse) :
    doRetry r = true ↔
      (r.statusCode / 100 = 5 ∨ IsInvalidOperationError r.decoded = true) := by
  by_cases h5 : r.statusCode / 100 = 5
  · simp [doRetry, h5]
  · by_cases hio : IsInvalidOperationError r.decoded = true
    · simp [doRetry, h5, hio]
    · simp [doRetry, h5, hio]

/-- C4.  `Transport.RoundTrip` performs at least one and at most
`retryCount = 10` inner round-trip attempts, and returns to the caller exactly
the response/error pair produced by the last attempt it performed (no
synthetic error is substituted or wrapped at this layer). -/
theorem roundTrip_attempt_bound_and_passthrough (att : Nat → Outcome) :
    1 ≤ (RoundTrip att).attempts ∧ (RoundTrip att).attempts ≤ 10 ∧
      ((RoundTrip att).resp, (RoundTrip att).err) =
        outcomeResult (att ((RoundTrip att).attempts - 1)) := by
  refine ⟨roundTripFrom_attempts_pos att 0 9, roundTripFrom_attempts_le att 10 0, ?_⟩
  have h := roundTripFrom_result att retryCount 0 (by simp [retryCount])
  simpa [RoundTrip] using h

/-- C5 counterexample.  The claim says the delay slept before retry attempt
`i` is `1.5 ^ i / 2` seconds; for `i = 1` that is 750000000 ns, but the code
(`time.Duration(math.Pow(1.5, retries)) * time.Second / 2`, which truncates
the float to an integer nanosecond count before scaling) sleeps 500000000 ns
between the second and third attempt against an always-5xx upstream. -/
theorem backoff_formula_counterexample :
    (RoundTrip always500).sleeps.get? 1 = some (1, 500000000) ∧
      backoff 1 = 500000000 ∧ claimedBackoffQ 1 = 750000000 ∧
      ((backoff 1 : ℚ) ≠ claimedBackoffQ 1) := by
  refine ⟨by decide, by decide, by norm_num [claimedBackoffQ], ?_⟩
  rw [show backoff 1 = 500000000 from by decide]
  norm_num [claimedBackoffQ]

/-- C5 amended.  Every delay the retry loop sleeps after a completed attempt
`j` equals `⌊1.5 ^ j⌋ / 2` seconds (i.e. `3 ^ j / 2 ^ j * 10 ^ 9 / 2`
nanoseconds with integer division), is only slept when attempt `j` yielded a
decoded response satisfying the retry condition, and never happens after the
last attempt (`j + 1 < retryCount`); timed-out or transport-failed attempts
never produce a sleep. -/
theorem backoff_delay_amended (att : Nat → Outcome) (j d : Nat)
    (h : (j, d) ∈ (RoundTrip att).sleeps) :
    d = 3 ^ j / 2 ^ j * 1000000000 / 2 ∧ j + 1 < retryCount ∧
      ∃ r, att j = Outcome.ok r ∧ doRetry r = true := by
  have := roundTripFrom_sleeps att retryCount 0 j d h
  simpa [backoff] using this

/-- Witness for C5 amended: the first sleep against an always-500 upstream. -/
theorem backoff_delay_amended_witness :
    500000000 = 3 ^ 0 / 2 ^ 0 * 1000000000 / 2 ∧ 0 + 1 < retryCount ∧
      ∃ r, always500 0 = Outcome.ok r ∧ doRetry r = true :=
  backoff_delay_amended always500 0 500000000 (by decide)

/-- C6.  A completed (decoded) attempt is followed by a further attempt if
and only if its status class is 5xx or its body decodes to exactly one error
entry carrying the INVALID_OPERATION marker in its `code` extension (or as
first element of its `codes` extension); any other decoded response stops the
loop immediately. -/
theorem retry_condition_characterization (att : Nat → Outcome) (i : Nat) (r : HResponse)
    (hok : att i = Outcome.ok r) (hi : i + 1 < retryCount)
    (hreach : i < (RoundTrip att).attempts) :
    (i + 1 < (RoundTrip att).attempts ↔
      (r.statusCode / 100 = 5 ∨ IsInvalidOperationError r.decoded = true)) := by
  have h10 : retryCount = 10 := rfl
  have hsplit := roundTripFrom_split att i 0 retryCount (by omega) hreach
  rw [show (0 : Nat) + i = i from by omega] at hsplit
  obtain ⟨m, hm⟩ : ∃ m, retryCount - i = m + 1 + 1 := ⟨retryCount - i - 2, by omega⟩
  rw [hm] at hsplit
  rw [← doRetry_iff r]
  show i + 1 < (RoundTrip att).attempts ↔ doRetry r = true
  rw [show (RoundTrip att).attempts = (roundTripFrom att 0 retryCount).attempts from rfl,
    hsplit]
  by_cases hdr : doRetry r = true
  · have hz : (roundTripFrom att (i + 1) (m + 1)).attempts ≠ 0 := by
      have := roundTripFrom_attempts_pos att (i + 1) m
      omega
    rw [roundTripFrom_attempts_ok_retry att i (m + 1) r hok hdr hz]
    have := roundTripFrom_attempts_pos att (i + 1) m
    simp only [hdr, iff_true]
    omega
  · rw [roundTripFrom_attempts_ok_stop att i (m + 1) r hok hdr]
    simp [hdr]

/-- Witness for C6: against an always-503 upstream the first attempt is
retried, matching the 5xx arm of the condition. -/
theorem retry_condition_characterization_witness :
    (0 + 1 < (RoundTrip always503).attempts ↔
      (resp503.statusCode / 100 = 5 ∨ IsInvalidOperationError resp503.decoded = true)) :=
  retry_condition_characterization always503 0 resp503 rfl (by decide) (by decide)

end Retryablehttp

namespace Gira

lemma runSession_ok_data_passthrough :
    ∀ (k : Nat) (wr : Bool) (l : List SubMsg),
      runSession wr (List.replicate k (SubMsg.dataMsg true) ++ l) = runSession wr l := by
  intro k
  induction k with
  | zero => intro wr l; simp
  | succ n ih =>
    intro wr l
    simp only [List.replicate_succ, List.cons_append]
    rw [show runSession wr (SubMsg.dataMsg true ::
        (List.replicate n (SubMsg.dataMsg true) ++ l)) =
        runSession wr (List.replicate n (SubMsg.dataMsg true) ++ l) from by
      simp [runSession, handler]]
    exact ih wr l

/-- C10.  A watch connection whose stream, after any number of successfully
delivered events, fails with an error matching the transient
INVALID_OPERATION marker is reconnected (the loop goes on to process the
remaining connections); after a stream error not matching the marker the
engine opens exactly one connection in total and never reconnects that watch
again, whatever further connections would have offered — termination on a
fatal stream error is absorbing. -/
theorem subscription_error_classification (d : Option (List GqlError)) (k : Nat)
    (rest : List (List SubMsg)) :
    startSubscription ((List.replicate k (SubMsg.dataMsg true) ++ [SubMsg.errMsg d]) :: rest) =
      if isInvalidOperationError d then 1 + startSubscription rest else 1 := by
  show watchConnections true _ = _
  rw [watchConnections]
  simp only [if_true]
  rw [runSession_ok_data_passthrough k true [SubMsg.errMsg d]]
  by_cases hio : isInvalidOperationError d = true
  · simp [runSession, handler, hio, startSubscription]
  · simp [runSession, handler, hio, startSubscription]

end Gira

namespace TokenServer

lemma assignOne_token (id : String) (n : Int) (ua v : String) (u : IntegrityToken) :
    (assignOne id n ua v u).token = u.token := by
  unfold assignOne; split <;> rfl

lemma assignOne_expiresAt (id : String) (n : Int) (ua v : String) (u : IntegrityToken) :
    (assignOne id n ua v u).expiresAt = u.expiresAt := by
  unfold assignOne; split <;> rfl

lemma assignOne_assignedTo_of_eq (id : String) (n : Int) (ua v : String)
    (u : IntegrityToken) (h : u.token = v) :
    (assignOne id n ua v u).assignedTo = id := by
  simp [assignOne, h]

lemma assignOne_assignedTo_of_ne (id : String) (n : Int) (ua v : String)
    (u : IntegrityToken) (h : ¬u.token = v) :
    (assignOne id n ua v u).assignedTo = u.assignedTo := by
  simp [assignOne, h]

lemma cleanupOne_expiresAt (n : Int) (u : IntegrityToken) :
    (cleanupOne n u).expiresAt = u.expiresAt := by
  unfold cleanupOne; split <;> rfl

lemma cleanupOne_assignedTo (n : Int) (u : IntegrityToken) :
    (cleanupOne n u).assignedTo = u.assignedTo := by
  unfold cleanupOne; split <;> rfl

lemma cleanupOne_of_valid (n : Int) (u : IntegrityToken) (h : n < u.expiresAt) :
    cleanupOne n u = u := by
  have : ¬(u.expiresAt < n) := by omega
  simp [cleanupOne, this]

lemma cleanupOne_token_cases (n : Int) (u : IntegrityToken) :
    (cleanupOne n u).token = u.token ∨ (cleanupOne n u).token = "" := by
  unfold cleanupOne; split
  · right; rfl
  · left; rfl

lemma inv_tick (db : List IntegrityToken) (t t' : Int)
    (h : BrokerInv db t) (htt : t ≤ t') : BrokerInv db t' := by
  obtain ⟨h1, h2, h3⟩ := h
  refine ⟨h1, ?_, ?_⟩
  · intro x hx hlt
    exact h2 x hx (by omega)
  · refine List.Pairwise.imp ?_ h3
    intro a b hab hne heq
    rcases hab hne heq with hd | hd
    · exact Or.inl (by omega)
    · exact Or.inr (by omega)

lemma inv_post (db : List IntegrityToken) (t : Int) (token : String) (exp : Int)
    (src : String) (h : BrokerInv db t) (hne : token ≠ "") :
    BrokerInv (handlePostToken db t token (some exp) src).2 t := by
  by_cases hlong : 32 < src.length
  · have hres : (handlePostToken db t token (some exp) src).2 = db := by
      simp [handlePostToken, hlong]
    rw [hres]; exact h
  · by_cases hdup : db.any (fun u => u.token == token) = true
    · have hres : (handlePostToken db t token (some exp) src).2 = db := by
        simp [handlePostToken, hlong, hdup]
      rw [hres]; exact h
    · have hres : (handlePostToken db t token (some exp) src).2 =
          db ++ [{ token := token, createdAt := t, tokenSource := src, expiresAt := exp,
                   assignedTo := "", assignedAt := 0, userAgent := "" }] := by
        simp [handlePostToken, hlong, hdup]
      rw [hres]
      have hnotin : ∀ u ∈ db, ¬u.token = token := by
        intro u hu heq
        exact hdup (List.any_eq_true.mpr ⟨u, hu, by simp [heq]⟩)
      obtain ⟨h1, h2, h3⟩ := h
      refine ⟨?_, ?_, ?_⟩
      · rw [tokensDistinct, List.pairwise_append]
        refine ⟨h1, List.pairwise_singleton _ _, ?_⟩
        intro a ha b hb
        simp only [List.mem_singleton] at hb
        subst hb
        intro heq
        exact absurd heq (hnotin a ha)
      · intro x hx
        rcases List.mem_append.mp hx with hx | hx
        · exact h2 x hx
        · simp only [List.mem_singleton] at hx
          subst hx
          intro _
          exact hne
      · rw [leewayUnique, List.pairwise_append]
        refine ⟨h3, List.pairwise_singleton _ _, ?_⟩
        intro a ha b hb
        simp only [List.mem_singleton] at hb
        subst hb
        intro hne' heq'
        exact absurd heq' hne'

lemma inv_cleanup (db : List IntegrityToken) (t : Int) (h : BrokerInv db t) :
    BrokerInv (cleanupTokens db t) t := by
  obtain ⟨h1, h2, h3⟩ := h
  refine ⟨?_, ?_, ?_⟩
  · rw [tokensDistinct, cleanupTokens, List.pairwise_map]
    refine List.Pairwise.imp ?_ h1
    intro a b hab heq
    rcases cleanupOne_token_cases t a with ha | ha
    · rcases cleanupOne_token_cases t b with hb | hb
      · rw [ha, hb] at heq
        rw [ha]
        exact hab heq
      · rw [ha, hb] at heq
        rw [ha]
        exact heq
    · rw [ha]
  · intro x hx hlt
    rcases List.mem_map.mp hx with ⟨u, hu, rfl⟩
    rw [cleanupOne_expiresAt] at hlt
    rw [cleanupOne_of_valid t u hlt]
    exact h2 u hu hlt
  · rw [leewayUnique, cleanupTokens, List.pairwise_map]
    refine List.Pairwise.imp ?_ h3
    intro a b hab
    rw [cleanupOne_assignedTo, cleanupOne_assignedTo, cleanupOne_expiresAt,
      cleanupOne_expiresAt]
    exact hab

lemma assign_preserves (db : List IntegrityToken) (t : Int) (id ua : String)
    (tok : IntegrityToken) (h : BrokerInv db t)
    (hre : db.find? (fun u => u.assignedTo == id && decide (t + 120 < u.expiresAt)) = none)
    (hm : (db.filter (fun u => u.assignedTo == "" && decide (t < u.expiresAt))).argmin
      IntegrityToken.expiresAt = some tok) :
    BrokerInv (db.map (assignOne id t ua tok.token)) t := by
  obtain ⟨h1, h2, h3⟩ := h
  have hmem := List.argmin_mem hm
  rcases List.mem_filter.mp hmem with ⟨hdb, hp⟩
  simp only [Bool.and_eq_true, beq_iff_eq, decide_eq_true_eq] at hp
  have htokne : tok.token ≠ "" := h2 tok hdb hp.2
  have hnotid : ∀ u ∈ db, ¬(u.assignedTo = id ∧ t + 120 < u.expiresAt) := by
    intro u hu
    have := List.find?_eq_none.mp hre u hu
    simpa [Bool.and_eq_true, beq_iff_eq, decide_eq_true_eq] using this
  refine ⟨?_, ?_, ?_⟩
  · rw [tokensDistinct, List.pairwise_map]
    refine List.Pairwise.imp ?_ h1
    intro a b hab
    rw [assignOne_token, assignOne_token]
    exact hab
  · intro x hx hlt
    rcases List.mem_map.mp hx with ⟨u, hu, rfl⟩
    rw [assignOne_expiresAt] at hlt
    rw [assignOne_token]
    exact h2 u hu hlt
  · rw [leewayUnique, List.pairwise_map]
    refine List.Pairwise.imp_of_mem ?_ (h3.and h1)
    intro a b ha hb hab
    obtain ⟨hlw, hdist⟩ := hab
    rw [assignOne_expiresAt, assignOne_expiresAt]
    by_cases hatok : a.token = tok.token
    · by_cases hbtok : b.token = tok.token
      · intro _ _
        have habtok : a.token = b.token := by rw [hatok, hbtok]
        have : tok.token = "" := by rw [← hatok]; exact hdist habtok
        exact absurd this htokne
      · rw [assignOne_assignedTo_of_eq id t ua tok.token a hatok,
          assignOne_assignedTo_of_ne id t ua tok.token b hbtok]
        intro _ heq
        right
        by_contra hgt
        exact hnotid b hb ⟨heq.symm, by omega⟩
    · by_cases hbtok : b.token = tok.token
      · rw [assignOne_assignedTo_of_ne id t ua tok.token a hatok,
          assignOne_assignedTo_of_eq id t ua tok.token b hbtok]
        intro hne heq
        left
        by_contra hgt
        exact hnotid a ha ⟨heq, by omega⟩
      · rw [assignOne_assignedTo_of_ne id t ua tok.token a hatok,
          assignOne_assignedTo_of_ne id t ua tok.token b hbtok]
        exact hlw

lemma getIntegrityToken_db_eq (db : List IntegrityToken) (t : Int) (hdr : String)
    (sub auth : Option String) (ua : String) :
    (getIntegrityToken db t hdr sub auth ua).db = db ∨
    ∃ id tok, auth = some id ∧
      db.find? (fun u => u.assignedTo == id && decide (t + 120 < u.expiresAt)) = none ∧
      (db.filter (fun u => u.assignedTo == "" && decide (t < u.expiresAt))).argmin
        IntegrityToken.expiresAt = some tok ∧
      (getIntegrityToken db t hdr sub auth ua).db = db.map (assignOne id t ua tok.token) := by
  unfold getIntegrityToken
  split
  · exact Or.inl rfl
  split
  · exact Or.inl rfl
  split
  · exact Or.inl rfl
  split
  · exact Or.inl rfl
  next id =>
    split
    · exact Or.inl rfl
    next hre =>
      split
      · exact Or.inl rfl
      next tok hm => exact Or.inr ⟨id, tok, rfl, hre, hm, rfl⟩

lemma inv_exchange (db : List IntegrityToken) (t : Int) (hdr : String)
    (sub auth : Option String) (ua : String) (h : BrokerInv db t) :
    BrokerInv (getIntegrityToken db t hdr sub auth ua).db t := by
  rcases getIntegrityToken_db_eq db t hdr sub auth ua with heq | ⟨id, tok, _, hre, hm, heq⟩
  · rw [heq]; exact h
  · rw [heq]; exact assign_preserves db t id ua tok h hre hm

lemma broker_inv_of_reachable (s : List IntegrityToken × Int) (h : Reachable s) :
    BrokerInv s.1 s.2 := by
  unfold Reachable at h
  induction h with
  | refl =>
    refine ⟨List.Pairwise.nil, ?_, List.Pairwise.nil⟩
    intro x hx
    simp at hx
  | tail _ hbc ih =>
    cases hbc with
    | tick db t t' htt => exact inv_tick db t t' ih htt
    | post db t token exp src hne => exact inv_post db t token exp src ih hne
    | exchange db t hdr sub auth ua => exact inv_exchange db t hdr sub auth ua ih
    | cleanup db t => exact inv_cleanup db t ih

lemma reachable_two_leases : Reachable ([tokAu, tokBu], 1) := by
  have r0 : Relation.ReflTransGen Step ([], 0) ([], 0) := Relation.ReflTransGen.refl
  have r1 : Relation.ReflTransGen Step ([], 0)
      ([{ token := "A", createdAt := 0, tokenSource := "", expiresAt := 100,
          assignedTo := "", assignedAt := 0, userAgent := "" }], 0) :=
    r0.tail (Step.post [] 0 "A" 100 "" (by decide))
  have r2 : Relation.ReflTransGen Step ([], 0)
      ([{ token := "A", createdAt := 0, tokenSource := "", expiresAt := 100,
          assignedTo := "", assignedAt := 0, userAgent := "" },
        { token := "B", createdAt := 0, tokenSource := "", expiresAt := 10000,
          assignedTo := "", assignedAt := 0, userAgent := "" }], 0) :=
    r1.tail (Step.post _ 0 "B" 10000 "" (by decide))
  have r3 : Relation.ReflTransGen Step ([], 0)
      ([tokAu,
        { token := "B", createdAt := 0, tokenSource := "", expiresAt := 10000,
          assignedTo := "", assignedAt := 0, userAgent := "" }], 0) :=
    r2.tail (Step.exchange _ 0 "jwt" (some "u") (some "u") "ua")
  have r4 : Relation.ReflTransGen Step ([], 0)
      ([tokAu,
        { token := "B", createdAt := 0, tokenSource := "", expiresAt := 10000,
          assignedTo := "", assignedAt := 0, userAgent := "" }], 1) :=
    r3.tail (Step.tick _ 0 1 (by decide))
  exact r4.tail (Step.exchange _ 1 "jwt" (some "u") (some "u") "ua")

/-- C1 counterexample.  The claim says two unexpired leases assigned to the
same identity are always the same lease.  Reachable refutation: post a lease
expiring at 100 and one expiring at 10000, exchange as user "u" at time 0
(gets the earliest-expiry lease "A"), exchange again at time 1 — lease "A"
has less than the 2-minute leeway of validity left, so lease "B" is also
assigned; at time 1 both leases are unexpired and assigned to "u", yet they
are different leases. -/
theorem broker_uniqueness_counterexample :
    Reachable ([tokAu, tokBu], 1) ∧
      tokAu.assignedTo = "u" ∧ tokBu.assignedTo = "u" ∧
      (1 : Int) < tokAu.expiresAt ∧ (1 : Int) < tokBu.expiresAt ∧ tokAu ≠ tokBu :=
  ⟨reachable_two_leases, rfl, rfl, by decide, by decide, by decide⟩

/-- C1 amended.  The original identity-uniqueness fails (see the
counterexample): because a new lease is assigned whenever the identity's
current lease has less than the 2-minute leeway of validity left, an identity
can briefly hold several unexpired leases.  What the broker does guarantee,
in every state reachable by PostToken, ExchangeToken and reclamation, is that
of any two distinct leases assigned to the same identity at most one is still
valid beyond the 2-minute leeway — so `ExchangeToken` never assigns an
additional lease to an identity that already holds one with more than the
leeway of validity remaining. -/
theorem broker_leeway_uniqueness (db : List IntegrityToken) (t : Int)
    (h : Reachable (db, t)) : leewayUnique db t :=
  (broker_inv_of_reachable (db, t) h).2.2

/-- Witness for C1 amended: the invariant at the counterexample's final
state — lease "A" is the one within leeway there. -/
theorem broker_leeway_uniqueness_witness : leewayUnique [tokAu, tokBu] 1 :=
  broker_leeway_uniqueness [tokAu, tokBu] 1 reachable_two_leases

lemma find?_eq_of_mem_of_pairwise {α : Type} {p : α → Bool} {R : α → α → Prop}
    (hcontra : ∀ a b, R a b → p a = true → p b = true → False) :
    ∀ {l : List α}, l.Pairwise R → ∀ {tok : α}, tok ∈ l → p tok = true →
      l.find? p = some tok := by
  intro l
  induction l with
  | nil => intro _ tok hmem _; simp at hmem
  | cons x xs ih =>
    intro hp tok hmem hptok
    rcases List.pairwise_cons.mp hp with ⟨hx, hxs⟩
    by_cases hpx : p x = true
    · rcases List.mem_cons.mp hmem with rfl | hmem2
      · simp [List.find?, hpx]
      · exact (hcontra x tok (hx tok hmem2) hpx hptok).elim
    · rcases List.mem_cons.mp hmem with rfl | hmem2
      · exact absurd hptok hpx
      · rw [List.find?_cons_of_neg _ hpx]
        exact ih hxs hmem2 hptok

/-- C2.  If the caller-credential JWT parses with subject `sub` and some
stored lease is assigned to `sub` with expiry beyond the 2-minute leeway
(`leewayUnique`, the broker invariant established for every reachable table,
makes it the only such lease), `getIntegrityToken` returns that lease's token
value, leaves the lease table unchanged, and never calls the
identity-verification endpoint — whatever that endpoint would have
answered. -/
theorem exchange_fast_path (db : List IntegrityToken) (now : Int) (hdr sub : String)
    (auth : Option String) (ua : String) (tok : IntegrityToken)
    (hhdr : hdr ≠ "") (hsub : sub ≠ "") (huniq : leewayUnique db now)
    (hmem : tok ∈ db) (hass : tok.assignedTo = sub) (hexp : now + 120 < tok.expiresAt) :
    getIntegrityToken db now hdr (some sub) auth ua =
      { result := Except.ok tok.token, db := db, authCalled := false } := by
  have hptok : (tok.assignedTo == sub && decide (now + 120 < tok.expiresAt)) = true := by
    simp [hass, hexp]
  have hfind : db.find? (fun u => u.assignedTo == sub && decide (now + 120 < u.expiresAt))
      = some tok := by
    refine find?_eq_of_mem_of_pairwise ?_ huniq hmem hptok
    intro a b hab hpa hpb
    simp only [Bool.and_eq_true, beq_iff_eq, decide_eq_true_eq] at hpa hpb
    have hor := hab (by rw [hpa.1]; exact hsub) (by rw [hpa.1, hpb.1])
    rcases hor with hd | hd
    · omega
    · omega
  simp [getIntegrityToken, hhdr, hfind]

/-- Witness for C2: a one-lease table where user "v" holds a lease valid for
another 300 seconds at time 0. -/
theorem exchange_fast_path_witness :
    getIntegrityToken [tokC] 0 "jwt" (some "v") (some "v") "ua" =
      { result := Except.ok tokC.token, db := [tokC], authCalled := false } :=
  exchange_fast_path [tokC] 0 "jwt" "v" (some "v") "ua" tokC (by decide) (by decide)
    (List.pairwise_singleton _ _) (by simp) rfl (by decide)

/-- C3.  On the slow path (subject parsed, no lease for the unverified
subject nor for the verified identity within leeway): if no stored lease is
both unassigned and unexpired, `getIntegrityToken` fails with the
distinguished no-tokens error, the table is unchanged, and the HTTP handler
answers 404 "no tokens available"; if such a lease exists, the call succeeds
with some unassigned unexpired lease's token. -/
theorem exchange_pool_exhaustion (db : List IntegrityToken) (now : Int)
    (hdr sub id ua : String) (hhdr : hdr ≠ "")
    (hfast : ∀ u ∈ db, ¬(u.assignedTo = sub ∧ now + 120 < u.expiresAt))
    (hre : ∀ u ∈ db, ¬(u.assignedTo = id ∧ now + 120 < u.expiresAt)) :
    ((∀ u ∈ db, ¬(u.assignedTo = "" ∧ now < u.expiresAt)) →
      getIntegrityToken db now hdr (some sub) (some id) ua =
        { result := Except.error ExchangeErr.noTokens, db := db, authCalled := true } ∧
      (handleExchangeToken db now hdr (some sub) (some id) ua).1 =
        (404, "no tokens available")) ∧
    ((∃ u ∈ db, u.assignedTo = "" ∧ now < u.expiresAt) →
      ∃ tok, tok ∈ db ∧ tok.assignedTo = "" ∧ now < tok.expiresAt ∧
        (getIntegrityToken db now hdr (some sub) (some id) ua).result =
          Except.ok tok.token) := by
  have hfast' : db.find?
      (fun u => u.assignedTo == sub && decide (now + 120 < u.expiresAt)) = none := by
    rw [List.find?_eq_none]
    intro u hu
    simp only [Bool.and_eq_true, beq_iff_eq, decide_eq_true_eq]
    exact hfast u hu
  have hre' : db.find?
      (fun u => u.assignedTo == id && decide (now + 120 < u.expiresAt)) = none := by
    rw [List.find?_eq_none]
    intro u hu
    simp only [Bool.and_eq_true, beq_iff_eq, decide_eq_true_eq]
    exact hre u hu
  constructor
  · intro hempty
    have hfilter : db.filter
        (fun u => u.assignedTo == "" && decide (now < u.expiresAt)) = [] := by
      rw [List.filter_eq_nil_iff]
      intro u hu
      simp only [Bool.and_eq_true, beq_iff_eq, decide_eq_true_eq]
      exact hempty u hu
    have hm : (db.filter
        (fun u => u.assignedTo == "" && decide (now < u.expiresAt))).argmin
        IntegrityToken.expiresAt = none := by
      rw [hfilter]
      exact List.argmin_eq_none.mpr rfl
    constructor
    · simp [getIntegrityToken, hhdr, hfast', hre', hm]
    · simp [handleExchangeToken, getIntegrityToken, hhdr, hfast', hre', hm]
  · rintro ⟨u, hu, hass, hexp⟩
    have humem : u ∈ db.filter
        (fun v => v.assignedTo == "" && decide (now < v.expiresAt)) :=
      List.mem_filter.mpr ⟨hu, by simp [hass, hexp]⟩
    obtain ⟨tok, hm⟩ : ∃ tok, (db.filter
        (fun v => v.assignedTo == "" && decide (now < v.expiresAt))).argmin
        IntegrityToken.expiresAt = some tok := by
      cases hargm : (db.filter
          (fun v => v.assignedTo == "" && decide (now < v.expiresAt))).argmin
          IntegrityToken.expiresAt with
      | none =>
        rw [List.argmin_eq_none.mp hargm] at humem
        simp at humem
      | some tok => exact ⟨tok, rfl⟩
    have htokmem := List.argmin_mem hm
    rcases List.mem_filter.mp htokmem with ⟨hdb, hp⟩
    simp only [Bool.and_eq_true, beq_iff_eq, decide_eq_true_eq] at hp
    refine ⟨tok, hdb, hp.1, hp.2, ?_⟩
    simp [getIntegrityToken, hhdr, hfast', hre', hm]

/-- Witness for C3: a table holding one valid unassigned lease for a fresh
user "w"; the exhaustion arm is vacuous, the availability arm fires. -/
theorem exchange_pool_exhaustion_witness :
    ((∀ u ∈ [tokD], ¬(u.assignedTo = "" ∧ (0 : Int) < u.expiresAt)) →
      getIntegrityToken [tokD] 0 "jwt" (some "w") (some "w") "ua" =
        { result := Except.error ExchangeErr.noTokens, db := [tokD], authCalled := true } ∧
      (handleExchangeToken [tokD] 0 "jwt" (some "w") (some "w") "ua").1 =
        (404, "no tokens available")) ∧
    ((∃ u ∈ [tokD], u.assignedTo = "" ∧ (0 : Int) < u.expiresAt) →
      ∃ tok, tok ∈ [tokD] ∧ tok.assignedTo = "" ∧ (0 : Int) < tok.expiresAt ∧
        (getIntegrityToken [tokD] 0 "jwt" (some "w") (some "w") "ua").result =
          Except.ok tok.token) :=
  exchange_pool_exhaustion [tokD] 0 "jwt" "w" "w" "ua" (by decide)
    (by decide) (by decide)

end TokenServer

namespace Main

/-- C7.  When the stored credential is found but invalid and the refresh
attempt fails, `tokenSource.Token` returns that failure and the persisted
credential is exactly the one stored before (no save occurs); and a refresh
whose HTTP exchange came back 400 with "Invalid refresh token" in the body
fails precisely with the distinguished `ErrInvalidRefreshToken`. -/
theorem token_refresh_failure_preserves_credential (tok : Giraauth.OToken) (now : Int)
    (rr : Giraauth.RefreshResp) (saveOk : Bool) (e : Giraauth.AuthError)
    (hv : oauth2Valid tok now = false)
    (hf : Giraauth.Refresh rr = Except.error e) :
    tokenSourceToken (some tok) now rr saveOk =
      (Except.error (TokenErr.authError e), some tok) ∧
    (rr.http.status = 400 → containsStr rr.http.body "Invalid refresh token" = true →
      e = Giraauth.AuthError.invalidRefreshToken) := by
  constructor
  · simp [tokenSourceToken, hv, hf]
  · intro h400 hbody
    have hclass : Giraauth.apiCallClassify rr.http =
        some Giraauth.AuthError.invalidRefreshToken := by
      simp [Giraauth.apiCallClassify, h400, hbody]
    rw [Giraauth.Refresh, hclass] at hf
    exact (Except.error.injEq .. ▸ hf).symm

/-- Witness for C7: a stale stored credential and a 400 "Invalid refresh
token" response. -/
theorem token_refresh_failure_preserves_credential_witness :
    tokenSourceToken (some staleTok) 1000 rejectResp true =
      (Except.error (TokenErr.authError Giraauth.AuthError.invalidRefreshToken),
        some staleTok) ∧
    (rejectResp.http.status = 400 →
      containsStr rejectResp.http.body "Invalid refresh token" = true →
      Giraauth.AuthError.invalidRefreshToken = Giraauth.AuthError.invalidRefreshToken) :=
  token_refresh_failure_preserves_credential staleTok 1000 rejectResp true
    Giraauth.AuthError.invalidRefreshToken (by decide) rfl

end Main

namespace Firebasetoken

lemma b64v_b64c : ∀ v : Nat, v < 64 → b64v (b64c v) = some v := by decide

lemma b64c_ne_pad : ∀ v : Nat, v < 64 → (b64c v == '=') = false := by decide

lemma b64Encode_ne_nil (a : Nat) (l : List Nat) : b64Encode (a :: l) ≠ [] := by
  match l with
  | [] => simp [b64Encode]
  | [b] => simp [b64Encode]
  | b :: c :: rest => simp [b64Encode]

theorem b64_roundtrip : ∀ (bs : List Nat), (∀ x ∈ bs, x < 256) →
    b64Decode (b64Encode bs) = some bs
  | [], _ => rfl
  | [a], h => by
    have ha : a < 256 := h a (by simp)
    have h1 : a / 4 < 64 := by omega
    have h2 : a % 4 * 16 < 64 := by omega
    show b64Decode [b64c (a / 4), b64c (a % 4 * 16), '=', '='] = some [a]
    simp [b64Decode, b64v_b64c _ h1, b64v_b64c _ h2]
    omega
  | [a, b], h => by
    have ha : a < 256 := h a (by simp)
    have hb : b < 256 := h b (by simp)
    have h1 : a / 4 < 64 := by omega
    have h2 : a % 4 * 16 + b / 16 < 64 := by omega
    have h3 : b % 16 * 4 < 64 := by omega
    show b64Decode
        [b64c (a / 4), b64c (a % 4 * 16 + b / 16), b64c (b % 16 * 4), '='] = some [a, b]
    simp [b64Decode, b64c_ne_pad _ h3, b64v_b64c _ h1, b64v_b64c _ h2, b64v_b64c _ h3]
    constructor
    · omega
    · omega
  | a :: b :: c :: rest, h => by
    have ha : a < 256 := h a (by simp)
    have hb : b < 256 := h b (by simp)
    have hc : c < 256 := h c (by simp)
    have h1 : a / 4 < 64 := by omega
    have h2 : a % 4 * 16 + b / 16 < 64 := by omega
    have h3 : b % 16 * 4 + c / 64 < 64 := by omega
    have h4 : c % 64 < 64 := by omega
    have hr := b64_roundtrip rest (fun x hx => h x (by simp [hx]))
    show b64Decode (b64c (a / 4) :: b64c (a % 4 * 16 + b / 16) ::
        b64c (b % 16 * 4 + c / 64) :: b64c (c % 64) :: b64Encode rest) =
      some (a :: b :: c :: rest)
    simp [b64Decode, b64c_ne_pad _ h3, b64c_ne_pad _ h4, b64v_b64c _ h1, b64v_b64c _ h2,
      b64v_b64c _ h3, b64v_b64c _ h4, hr]
    refine ⟨by omega, by omega, by omega⟩

lemma xorBytes_length (a b : List Nat) : (xorBytes a b).length = min a.length b.length := by
  simp [xorBytes]

lemma xorBytes_cancel : ∀ (a b : List Nat), a.length = b.length →
    xorBytes a (xorBytes a b) = b := by
  intro a
  induction a with
  | nil =>
    intro b h
    cases b with
    | nil => rfl
    | cons y ys => simp at h
  | cons x xs ih =>
    intro b h
    cases b with
    | nil => simp at h
    | cons y ys =>
      simp only [xorBytes, List.zipWith_cons_cons]
      rw [Nat.xor_cancel_left]
      have := ih ys (by simpa using h)
      simp only [xorBytes] at this
      rw [this]

lemma xorBytes_bound : ∀ (a b : List Nat), (∀ x ∈ a, x < 256) → (∀ x ∈ b, x < 256) →
    ∀ x ∈ xorBytes a b, x < 256 := by
  intro a
  induction a with
  | nil => intro b _ _ x hx; simp [xorBytes] at hx
  | cons v vs ih =>
    intro b ha hb x hx
    cases b with
    | nil => simp [xorBytes] at hx
    | cons w ws =>
      simp only [xorBytes, List.zipWith_cons_cons, List.mem_cons] at hx
      rcases hx with rfl | hx
      · have h1 : v < 256 := ha v (by simp)
        have h2 : w < 256 := hb w (by simp)
        exact Nat.xor_lt_two_pow (n := 8) h1 h2
      · exact ih ws (fun u hu => ha u (by simp [hu])) (fun u hu => hb u (by simp [hu])) x hx

lemma cbcEnc_length (E : List Nat → List Nat) :
    ∀ (blocks : List (List Nat)) (iv : List Nat),
      (cbcEnc E iv blocks).length = blocks.length := by
  intro blocks
  induction blocks with
  | nil => intro iv; rfl
  | cons b rest ih => intro iv; simp [cbcEnc, ih]

lemma cbcEnc_blocks_prop (E : List Nat → List Nat)
    (hE : ∀ b, b.length = 16 → (∀ x ∈ b, x < 256) →
      (E b).length = 16 ∧ ∀ x ∈ E b, x < 256) :
    ∀ (blocks : List (List Nat)) (iv : List Nat), iv.length = 16 → (∀ x ∈ iv, x < 256) →
      (∀ b ∈ blocks, b.length = 16 ∧ ∀ x ∈ b, x < 256) →
      ∀ cb ∈ cbcEnc E iv blocks, cb.length = 16 ∧ ∀ x ∈ cb, x < 256 := by
  intro blocks
  induction blocks with
  | nil => intro iv _ _ _ cb hcb; simp [cbcEnc] at hcb
  | cons b rest ih =>
    intro iv hiv hivb hall cb hcb
    have hb := hall b (by simp)
    have hxlen : (xorBytes iv b).length = 16 := by
      rw [xorBytes_length, hiv, hb.1]; simp
    have hxb : ∀ x ∈ xorBytes iv b, x < 256 := xorBytes_bound iv b hivb hb.2
    have hEb := hE (xorBytes iv b) hxlen hxb
    simp only [cbcEnc, List.mem_cons] at hcb
    rcases hcb with rfl | hcb
    · exact hEb
    · exact ih (E (xorBytes iv b)) hEb.1 hEb.2 (fun u hu => hall u (by simp [hu])) cb hcb

lemma cbc_roundtrip (E D : List Nat → List Nat)
    (hinv : ∀ b, b.length = 16 → (∀ x ∈ b, x < 256) → D (E b) = b)
    (hE : ∀ b, b.length = 16 → (∀ x ∈ b, x < 256) →
      (E b).length = 16 ∧ ∀ x ∈ E b, x < 256) :
    ∀ (blocks : List (List Nat)) (iv : List Nat), iv.length = 16 → (∀ x ∈ iv, x < 256) →
      (∀ b ∈ blocks, b.length = 16 ∧ ∀ x ∈ b, x < 256) →
      cbcDec D iv (cbcEnc E iv blocks) = blocks := by
  intro blocks
  induction blocks with
  | nil => intro iv _ _ _; rfl
  | cons b rest ih =>
    intro iv hiv hivb hall
    have hb := hall b (by simp)
    have hxlen : (xorBytes iv b).length = 16 := by
      rw [xorBytes_length, hiv, hb.1]; simp
    have hxb : ∀ x ∈ xorBytes iv b, x < 256 := xorBytes_bound iv b hivb hb.2
    have hEb := hE (xorBytes iv b) hxlen hxb
    simp only [cbcEnc, cbcDec]
    rw [hinv (xorBytes iv b) hxlen hxb, xorBytes_cancel iv b (by omega)]
    rw [ih (E (xorBytes iv b)) hEb.1 hEb.2 (fun u hu => hall u (by simp [hu]))]

lemma chunk16_flatten (l : List Nat) : (chunk16 l).flatten = l := by
  have key : ∀ (n : Nat) (l : List Nat), l.length ≤ n → (chunk16 l).flatten = l := by
    intro n
    induction n with
    | zero =>
      intro l hl
      have hnil : l = [] := List.eq_nil_of_length_eq_zero (by omega)
      subst hnil
      simp [chunk16]
    | succ m ih =>
      intro l hl
      cases l with
      | nil => simp [chunk16]
      | cons a rest =>
        rw [chunk16]
        simp only [List.flatten_cons]
        rw [ih ((a :: rest).drop 16)
          (by simp only [List.length_drop, List.length_cons] at hl ⊢; omega)]
        exact List.take_append_drop 16 (a :: rest)
  exact key l.length l le_rfl

lemma chunk16_eq_nil_iff (l : List Nat) : chunk16 l = [] ↔ l = [] := by
  cases l with
  | nil => simp [chunk16]
  | cons a rest => simp [chunk16]

lemma chunk16_prop (l : List Nat) (hmod : l.length % 16 = 0) (hbnd : ∀ x ∈ l, x < 256) :
    ∀ b ∈ chunk16 l, b.length = 16 ∧ ∀ x ∈ b, x < 256 := by
  have key : ∀ (n : Nat) (l : List Nat), l.length ≤ n → l.length % 16 = 0 →
      (∀ x ∈ l, x < 256) → ∀ b ∈ chunk16 l, b.length = 16 ∧ ∀ x ∈ b, x < 256 := by
    intro n
    induction n with
    | zero =>
      intro l hl _ _ b hb
      have hnil : l = [] := List.eq_nil_of_length_eq_zero (by omega)
      subst hnil
      simp [chunk16] at hb
    | succ m ih =>
      intro l hl hmod hbnd b hb
      cases l with
      | nil => simp [chunk16] at hb
      | cons a rest =>
        have hlen : 16 ≤ (a :: rest).length := by
          by_contra hlt
          simp only [List.length_cons] at hlt hmod
          omega
        rw [chunk16] at hb
        simp only [List.mem_cons] at hb
        rcases hb with rfl | hb
        · refine ⟨by simp only [List.length_take, List.length_cons] at hlen ⊢; omega, ?_⟩
          intro x hx
          exact hbnd x (List.take_subset 16 (a :: rest) hx)
        · refine ih ((a :: rest).drop 16) ?_ ?_ ?_ b hb
          · simp only [List.length_drop, List.length_cons] at hl ⊢
            omega
          · simp only [List.length_drop, List.length_cons] at hmod ⊢
            omega
          · intro x hx
            exact hbnd x (List.drop_subset 16 (a :: rest) hx)
  exact key l.length l le_rfl hmod hbnd

lemma chunk16_flatten_blocks : ∀ (bs : List (List Nat)), (∀ b ∈ bs, b.length = 16) →
    chunk16 bs.flatten = bs := by
  intro bs
  induction bs with
  | nil => intro; simp [chunk16]
  | cons b rest ih =>
    intro hall
    have hb : b.length = 16 := hall b (by simp)
    cases b with
    | nil => simp at hb
    | cons x xs =>
      show chunk16 ((x :: xs) ++ rest.flatten) = (x :: xs) :: rest
      rw [List.cons_append, chunk16, ← List.cons_append]
      rw [show (16 : Nat) = (x :: xs).length from hb.symm, List.take_left, List.drop_left]
      rw [ih (fun u hu => hall u (by simp [hu]))]

lemma flatten_length_uniform : ∀ (bs : List (List Nat)), (∀ b ∈ bs, b.length = 16) →
    bs.flatten.length = 16 * bs.length := by
  intro bs
  induction bs with
  | nil => intro; rfl
  | cons b rest ih =>
    intro hall
    have hb : b.length = 16 := hall b (by simp)
    simp only [List.flatten_cons, List.length_append, List.length_cons, hb,
      ih (fun u hu => hall u (by simp [hu]))]
    ring

lemma getKeyAndIV_some (sub jti key iv : List Nat)
    (hk : getKeyAndIV sub jti = some (key, iv)) :
    key = sub.filter (fun b => b != 45) ∧ key.length = 32 ∧
    iv = jti.take 16 ∧ iv.length = 16 := by
  by_cases h1 : sub.length < 36
  · simp [getKeyAndIV, h1] at hk
  by_cases h2 : (sub.filter (fun b => b != 45)).length ≠ 32
  · simp [getKeyAndIV, h1, h2] at hk
  by_cases h3 : jti.length < 16
  · simp [getKeyAndIV, h1, h2, h3] at hk
  simp only [getKeyAndIV, h1, h2, h3, if_false, Option.some.injEq, Prod.mk.injEq] at hk
  obtain ⟨hkey, hiv⟩ := hk
  refine ⟨hkey.symm, ?_, hiv.symm, ?_⟩
  · rw [← hkey]
    omega
  · rw [← hiv, List.length_take]
    omega

/-- C8.  For every block cipher whose decryption inverts encryption on
16-byte blocks and whose encryption maps 16-byte blocks of bytes to 16-byte
blocks of bytes (as AES does), every attestation token (any byte string, any
length) and every credential whose `sub`/`jti` claims pass `getKeyAndIV`:
`decrypt(Encrypt(token, cred), cred)` returns exactly the original token. -/
theorem encrypt_decrypt_roundtrip (A : BlockCipher)
    (hinv : ∀ k b, b.length = 16 → (∀ x ∈ b, x < 256) → A.dec k (A.enc k b) = b)
    (hshape : ∀ k b, b.length = 16 → (∀ x ∈ b, x < 256) →
      (A.enc k b).length = 16 ∧ ∀ x ∈ A.enc k b, x < 256)
    (t sub jti key iv : List Nat)
    (ht : ∀ x ∈ t, x < 256) (hjti : ∀ x ∈ jti, x < 256)
    (hk : getKeyAndIV sub jti = some (key, iv)) :
    ∃ ct, Encrypt A t sub jti = some ct ∧ decrypt A ct sub jti = some t := by
  obtain ⟨hkey, hklen, hiv, hivlen⟩ := getKeyAndIV_some sub jti key iv hk
  have hivb : ∀ x ∈ iv, x < 256 := by
    intro x hx
    exact hjti x (List.take_subset 16 jti (hiv ▸ hx))
  have hpl : (pkcs7pad t).length = t.length + (16 - t.length % 16) := by
    simp [pkcs7pad]
  have hpmod : (pkcs7pad t).length % 16 = 0 := by
    rw [hpl]
    omega
  have hpb : ∀ x ∈ pkcs7pad t, x < 256 := by
    intro x hx
    rcases List.mem_append.mp hx with hx | hx
    · exact ht x hx
    · have := List.eq_of_mem_replicate hx
      omega
  have hblocks : ∀ b ∈ chunk16 (pkcs7pad t), b.length = 16 ∧ ∀ x ∈ b, x < 256 :=
    chunk16_prop (pkcs7pad t) hpmod hpb
  have hcbsprop : ∀ cb ∈ cbcEnc (A.enc key) iv (chunk16 (pkcs7pad t)),
      cb.length = 16 ∧ ∀ x ∈ cb, x < 256 :=
    cbcEnc_blocks_prop (A.enc key) (hshape key) (chunk16 (pkcs7pad t)) iv hivlen hivb hblocks
  have hflatb : ∀ x ∈ (cbcEnc (A.enc key) iv (chunk16 (pkcs7pad t))).flatten, x < 256 := by
    intro x hx
    rcases List.mem_flatten.mp hx with ⟨l, hl, hxl⟩
    exact (hcbsprop l hl).2 x hxl
  have hb64 : b64Decode (b64Encode (cbcEnc (A.enc key) iv (chunk16 (pkcs7pad t))).flatten)
      = some (cbcEnc (A.enc key) iv (chunk16 (pkcs7pad t))).flatten :=
    b64_roundtrip _ hflatb
  have hflatlen : (cbcEnc (A.enc key) iv (chunk16 (pkcs7pad t))).flatten.length =
      16 * (cbcEnc (A.enc key) iv (chunk16 (pkcs7pad t))).length :=
    flatten_length_uniform _ (fun b hb => (hcbsprop b hb).1)
  have hchne : chunk16 (pkcs7pad t) ≠ [] := by
    rw [Ne, chunk16_eq_nil_iff]
    intro hpe
    rw [hpe] at hpl
    simp only [List.length_nil] at hpl
    omega
  have hcbsge : 1 ≤ (cbcEnc (A.enc key) iv (chunk16 (pkcs7pad t))).length := by
    rw [cbcEnc_length]
    cases hch : chunk16 (pkcs7pad t) with
    | nil => exact absurd hch hchne
    | cons _ _ => simp
  have hguard : (decide ((cbcEnc (A.enc key) iv (chunk16 (pkcs7pad t))).flatten.length < 16)
      || ((cbcEnc (A.enc key) iv (chunk16 (pkcs7pad t))).flatten.length % 16 != 0)) = false := by
    rw [hflatlen]
    simp only [Bool.or_eq_false_iff, decide_eq_false_iff_not, bne_eq_false_iff_eq]
    omega
  have hchunkinv : chunk16 (cbcEnc (A.enc key) iv (chunk16 (pkcs7pad t))).flatten =
      cbcEnc (A.enc key) iv (chunk16 (pkcs7pad t)) :=
    chunk16_flatten_blocks _ (fun b hb => (hcbsprop b hb).1)
  have hdec : (cbcDec (A.dec key) iv
      (chunk16 (cbcEnc (A.enc key) iv (chunk16 (pkcs7pad t))).flatten)).flatten =
      pkcs7pad t := by
    rw [hchunkinv,
      cbc_roundtrip (A.enc key) (A.dec key) (hinv key) (hshape key)
        (chunk16 (pkcs7pad t)) iv hivlen hivb hblocks,
      chunk16_flatten]
  have hp1 : 1 ≤ 16 - t.length % 16 := by omega
  have hlast : (pkcs7pad t).getLast? = some (16 - t.length % 16) := by
    rw [pkcs7pad, List.getLast?_append]
    obtain ⟨m, hm⟩ : ∃ m, 16 - t.length % 16 = m + 1 := ⟨16 - t.length % 16 - 1, by omega⟩
    rw [hm, List.replicate_succ', List.getLast?_concat]
    rfl
  have hsub16 : (pkcs7pad t).length - (16 - t.length % 16) = t.length := by
    rw [hpl]
    omega
  have hpguard : (decide (16 < 16 - t.length % 16) || decide (16 - t.length % 16 < 1))
      = false := by
    simp only [Bool.or_eq_false_iff, decide_eq_false_iff_not]
    omega
  have hdropall : ((pkcs7pad t).drop t.length).all
      (fun b => b == 16 - t.length % 16) = true := by
    rw [pkcs7pad, List.drop_left]
    simp only [List.all_eq_true, beq_iff_eq]
    intro x hx
    exact List.eq_of_mem_replicate hx
  have htake : (pkcs7pad t).take t.length = t := by
    rw [pkcs7pad, List.take_left]
  refine ⟨b64Encode (cbcEnc (A.enc key) iv (chunk16 (pkcs7pad t))).flatten, ?_, ?_⟩
  · simp [Encrypt, hk]
  · simp only [decrypt, hk, hb64, hguard, Bool.false_eq_true, if_false, hdec, hlast,
      hpguard, hsub16, hdropall, if_true, htake]

/-- Witness for C8: the identity block cipher, a 3-byte token and the test
credential's claims. -/
theorem encrypt_decrypt_roundtrip_witness :
    ∃ ct, Encrypt idCipher tokEx subEx jtiEx = some ct ∧
      decrypt idCipher ct subEx jtiEx = some tokEx :=
  encrypt_decrypt_roundtrip idCipher (fun _ _ _ _ => rfl)
    (fun _ b h1 h2 => ⟨h1, h2⟩) tokEx subEx jtiEx
    (subEx.filter (fun b => b != 45)) (jtiEx.take 16)
    (by decide) (by decide) (by decide)

/-- C9 counterexample.  The claim says a 16-byte AES key is derived from the
`sub` claim; on the test credential's `sub` (a 36-character UUID) the derived
key — the UUID with hyphens stripped — has 32 bytes, not 16 (the scheme is
AES-256, not AES-128). -/
theorem key_size_counterexample :
    ∃ key iv, getKeyAndIV subEx jtiEx = some (key, iv) ∧
      key.length = 32 ∧ ¬key.length = 16 := by
  refine ⟨subEx.filter (fun b => b != 45), jtiEx.take 16, by decide, by decide, by decide⟩

/-- C9 amended.  For every credential accepted by `getKeyAndIV`, the AES key
is the 32-byte string obtained from the `sub` claim by stripping hyphens
(AES-256), the IV is the first 16 bytes of the `jti` claim, and `Encrypt` is
AES-CBC over the PKCS#7-padded token with the result base64-encoded. -/
theorem key_iv_derivation_amended (sub jti key iv : List Nat)
    (hk : getKeyAndIV sub jti = some (key, iv)) :
    key = sub.filter (fun b => b != 45) ∧ key.length = 32 ∧
    iv = jti.take 16 ∧ iv.length = 16 ∧
    ∀ (A : BlockCipher) (t : List Nat),
      Encrypt A t sub jti =
        some (b64Encode ((cbcEnc (A.enc key) iv (chunk16 (pkcs7pad t))).flatten)) := by
  obtain ⟨hkey, hklen, hiv, hivlen⟩ := getKeyAndIV_some sub jti key iv hk
  refine ⟨hkey, hklen, hiv, hivlen, ?_⟩
  intro A t
  rw [Encrypt, hk]

/-- Witness for C9 amended: the test credential's claims. -/
theorem key_iv_derivation_amended_witness :
    subEx.filter (fun b => b != 45) = subEx.filter (fun b => b != 45) ∧
    (subEx.filter (fun b => b != 45)).length = 32 ∧
    jtiEx.take 16 = jtiEx.take 16 ∧ (jtiEx.take 16).length = 16 ∧
    ∀ (A : BlockCipher) (t : List Nat),
      Encrypt A t subEx jtiEx =
        some (b64Encode ((cbcEnc (A.enc (subEx.filter (fun b => b != 45)))
          (jtiEx.take 16) (chunk16 (pkcs7pad t))).flatten)) :=
  key_iv_derivation_amended subEx jtiEx (subEx.filter (fun b => b != 45))
    (jtiEx.take 16) (by decide)

end Firebasetoken

end Girabot
